import Mathlib

/-!
Shallow embedding of the recommendation-scoring module
(`examples/advanced/ai-powered-api/handlers/recommendations.py`).

Modelling conventions:
* Preference scores and content base scores are modelled as exact rationals
  (the Python code uses floats; all literals appearing in the program are
  decimal and hence exact in `ℚ`).
* Similarity values live in `ℝ`, because the code divides by the product of
  two L2 norms (`sum(...) ** 0.5`).
* Python dicts of preferences are modelled as association lists built by
  insert-or-overwrite, preserving Python's insertion order semantics.
* The data store (`load_user_data`) is I/O glue; it is passed in as a
  function parameter, and the full user population is likewise a parameter.
* `random.sample` is modelled as a seed-driven selection without
  replacement (`randomSample`); every claim about the default mode is
  proved for every seed.
-/

namespace Backworks

/-- A user record as supplied by the data store: row of the `users` table
together with the `GROUP_CONCAT` encoded preference string (which is NULL —
here `none` — when the user has no preference rows). -/
structure User where
  id : ℤ
  name : String
  email : String
  preferences : Option String
deriving DecidableEq, Repr

/-- The raw preference string of a user; Python's truthiness test
`user.get('preferences')` is false exactly when this is `""`
(covering both `None` and the empty string). -/
def rawPrefs (u : User) : String := (u.preferences).getD ""

/-- A parsed preference map: association list from category to score,
standing for a Python dict (unique keys, insertion order). -/
abbrev PrefMap := List (String × ℚ)

/-- Python dict assignment `m[k] = v`: overwrite in place if the key is
present, else append. -/
def dictInsert (m : PrefMap) (k : String) (v : ℚ) : PrefMap :=
  match m with
  | [] => [(k, v)]
  | (k2, v2) :: rest =>
    if k2 = k then (k2, v) :: rest else (k2, v2) :: dictInsert rest k v

/-- Python `m.get(k, d)`: value of the first entry with key `k`, else `d`. -/
def dictGetD (m : PrefMap) (k : String) (d : ℚ) : ℚ :=
  match m with
  | [] => d
  | (k2, v) :: rest => if k2 = k then v else dictGetD rest k d

/-- The keys of a preference map, in order. -/
def dictKeys (m : PrefMap) : List String := m.map Prod.fst

/-- Error raised by the preference parser when a score suffix is not a
well-formed floating-point literal (Python's `ValueError` from `float`). -/
inductive ParseError where
  | malformedScore : String → ParseError
deriving DecidableEq, Repr

/-- Numeric value of a digit string. -/
def natOfDigits (l : List Char) : ℕ :=
  l.foldl (fun a c => 10 * a + (c.toNat - 48)) 0

/-- Python `str.strip()`: remove leading and trailing whitespace. -/
def charTrim (l : List Char) : List Char :=
  ((l.dropWhile (fun c => c.isWhitespace)).reverse.dropWhile
    (fun c => c.isWhitespace)).reverse

/-- Helper for `splitComma`: `acc` holds the current piece reversed. -/
def splitCommaAux : List Char → List Char → List String
  | [], acc => [acc.reverse.asString]
  | c :: rest, acc =>
    if c = ',' then acc.reverse.asString :: splitCommaAux rest []
    else splitCommaAux rest (c :: acc)

/-- Python `s.split(',')`: split on every comma; the empty string yields
`[""]`, adjacent commas yield empty pieces. -/
def splitComma (s : String) : List String :=
  splitCommaAux s.toList []

/-- Parse the mantissa part of a float literal: digits, optionally with a
decimal point (`12`, `12.`, `12.34`, `.34`). -/
def parseMantissa (cs : List Char) : Option ℚ :=
  let ip := cs.takeWhile (fun c => c.isDigit)
  let rest := cs.dropWhile (fun c => c.isDigit)
  match rest with
  | [] => if ip = [] then none else some (natOfDigits ip : ℚ)
  | '.' :: r =>
    let fp := r.takeWhile (fun c => c.isDigit)
    let rest2 := r.dropWhile (fun c => c.isDigit)
    if rest2 = [] ∧ (ip ≠ [] ∨ fp ≠ []) then
      some ((natOfDigits ip : ℚ) + (natOfDigits fp : ℚ) / 10 ^ fp.length)
    else none
  | _ => none

/-- Parse the exponent part of a float literal (after `e`/`E`). -/
def parseExponent (cs : List Char) : Option ℤ :=
  match cs with
  | '+' :: r => if r ≠ [] ∧ r.all (fun c => c.isDigit) then some (natOfDigits r : ℤ) else none
  | '-' :: r => if r ≠ [] ∧ r.all (fun c => c.isDigit) then some (-(natOfDigits r : ℤ)) else none
  | r => if r ≠ [] ∧ r.all (fun c => c.isDigit) then some (natOfDigits r : ℤ) else none

/-- Model of Python's `float(s)` on finite decimal/scientific literals:
optional surrounding whitespace, optional sign, decimal mantissa with
optional fraction, optional `e`/`E` exponent.  (The non-finite literals
`inf`/`nan` and digit-group underscores have no rational value and are
outside this model.) -/
def parseFloat (s : String) : Option ℚ :=
  let cs := charTrim s.toList
  let (sgn, cs2) : ℚ × List Char :=
    match cs with
    | '+' :: r => (1, r)
    | '-' :: r => (-1, r)
    | r => (1, r)
  let mant := cs2.takeWhile (fun c => c ≠ 'e' ∧ c ≠ 'E')
  let rest := cs2.dropWhile (fun c => c ≠ 'e' ∧ c ≠ 'E')
  match rest with
  | [] => (parseMantissa mant).map (fun m => sgn * m)
  | _ :: r => do
    let m ← parseMantissa mant
    let e ← parseExponent r
    pure (sgn * m * 10 ^ e)

/-- Python `piece.split(':', 1)` guarded by `':' in piece`: split at the
first colon, returning `none` when there is no colon. -/
def splitFirstColon (piece : String) : Option (String × String) :=
  let cs := piece.toList
  if cs.contains ':' then
    some ((cs.takeWhile (fun c => c ≠ ':')).asString,
          ((cs.dropWhile (fun c => c ≠ ':')).drop 1).asString)
  else none

/-- One step of the preference-parsing loop: a piece without a colon is
silently skipped; otherwise the score suffix is parsed and the pair is
inserted into the dict, failing on a malformed score. -/
def prefStep (m : PrefMap) (piece : String) : Except ParseError PrefMap :=
  match splitFirstColon piece with
  | none => .ok m
  | some (cat, sc) =>
    match parseFloat sc with
    | none => .error (.malformedScore piece)
    | some v => .ok (dictInsert m cat v)

/-- The preference parser: `for pref in raw.split(','): if ':' in pref:
cat, score = pref.split(':', 1); prefs[cat] = float(score)`. -/
def parsePrefs (raw : String) : Except ParseError PrefMap :=
  (splitComma raw).foldlM prefStep []

/-- Sum of squared scores of a preference map, `sum(p[c]**2 for c in p)`. -/
def sumSq (p : PrefMap) : ℚ := (p.map (fun e => e.2 ^ 2)).sum

/-- The set of categories present in both maps,
`set(prefs1.keys()) & set(prefs2.keys())`. -/
def commonCats (p1 p2 : PrefMap) : Finset String :=
  (dictKeys p1).toFinset ∩ (dictKeys p2).toFinset

/-- The dot product over the shared categories,
`sum(prefs1[cat] * prefs2[cat] for cat in common_categories)`. -/
def dotProd (p1 p2 : PrefMap) : ℚ :=
  ∑ c ∈ commonCats p1 p2, dictGetD p1 c 0 * dictGetD p2 c 0

/-- L2 norm of a map's full score vector,
`sum(p[c]**2 for c in p) ** 0.5`. -/
noncomputable def magnitude (p : PrefMap) : ℝ :=
  Real.sqrt ((sumSq p : ℚ) : ℝ)

open Classical in
/-- Core of `calculate_user_similarity`, at the level of parsed maps.
The first branch is the code's guard
`if not user1.get('preferences') or not user2.get('preferences')` lifted to
maps (an empty map also shares no category, so the lift returns the same
value on every input as the raw-string guard does). -/
noncomputable def similarity (p1 p2 : PrefMap) : ℝ :=
  if p1 = [] ∨ p2 = [] then 0.1
  else if commonCats p1 p2 = ∅ then 0.1
  else if magnitude p1 = 0 ∨ magnitude p2 = 0 then 0.1
  else ((dotProd p1 p2 : ℚ) : ℝ) / (magnitude p1 * magnitude p2)

/-- `calculate_user_similarity`: guard on raw preference strings, parse
both, then the cosine-similarity core.  A `float` failure propagates. -/
noncomputable def calculate_user_similarity (u1 u2 : User) :
    Except ParseError ℝ :=
  if rawPrefs u1 = "" ∨ rawPrefs u2 = "" then .ok 0.1
  else do
    let p1 ← parsePrefs (rawPrefs u1)
    let p2 ← parsePrefs (rawPrefs u2)
    pure (similarity p1 p2)

/-- Round half to even (Python's `round` tie-breaking) to an integer. -/
def roundHalfEvenQ (x : ℚ) : ℤ :=
  let f := ⌊x⌋
  let r := x - (f : ℚ)
  if r < 1 / 2 then f
  else if 1 / 2 < r then f + 1
  else if f % 2 = 0 then f else f + 1

/-- Python `round(x, 3)` on rationals. -/
def pyRound3 (x : ℚ) : ℚ := (roundHalfEvenQ (x * 1000) : ℚ) / 1000

open Classical in
/-- Round half to even on reals. -/
noncomputable def roundHalfEvenR (x : ℝ) : ℤ :=
  let f := ⌊x⌋
  let r := x - (f : ℝ)
  if r < 1 / 2 then f
  else if 1 / 2 < r then f + 1
  else if f % 2 = 0 then f else f + 1

/-- Python `round(x, 3)` on reals. -/
noncomputable def pyRound3R (x : ℝ) : ℝ := (roundHalfEvenR (x * 1000) : ℝ) / 1000

/-- A collaborative recommendation entry (the `user_connection` dict). -/
structure CollabRec where
  user_id : ℤ
  name : String
  email : String
  similarity_score : ℝ
  reason : String

/-- Build the output dict for one similar user. -/
noncomputable def mkCollabRec (p : User × ℝ) : CollabRec :=
  ⟨p.1.id, p.1.name, p.1.email, pyRound3R p.2,
   "Similar interests and interaction patterns"⟩

/-- The sort key used by `similarities.sort(key=lambda x: x[1],
reverse=True)`: descending by similarity. -/
def collabSortRel : (User × ℝ) → (User × ℝ) → Prop := fun a b => b.2 ≤ a.2

noncomputable instance : DecidableRel collabSortRel :=
  fun _ _ => Classical.dec _

instance : IsTotal (User × ℝ) collabSortRel :=
  ⟨fun a b => le_total b.2 a.2⟩

instance : IsTrans (User × ℝ) collabSortRel :=
  ⟨fun _ _ _ h1 h2 => le_trans h2 h1⟩

/-- The similarity-computation loop of
`generate_collaborative_recommendations`: pair each remaining user with
its similarity to the target, in population order, propagating the first
parse failure. -/
noncomputable def simsList (target : User) : List User → Except ParseError (List (User × ℝ))
  | [] => .ok []
  | u :: rest => do
    let s ← calculate_user_similarity target u
    let tail ← simsList target rest
    pure ((u, s) :: tail)

/-- The body of the collaborative recommender once the target user has been
located: score every other user, stable-sort descending by similarity, take
the top 3, and build the output records. -/
noncomputable def collabForTarget (users : List User) (user_id : ℤ)
    (target : User) : Except ParseError (List CollabRec) := do
  let sims ← simsList target (users.filter (fun u => u.id != user_id))
  pure (((List.insertionSort collabSortRel sims).take 3).map mkCollabRec)

/-- `generate_collaborative_recommendations`, with the population (the
result of `load_user_data()`) passed in: locate the target by id (absent →
empty result), then rank the others by similarity. -/
noncomputable def generate_collaborative_recommendations
    (users : List User) (user_id : ℤ) : Except ParseError (List CollabRec) :=
  match users.find? (fun u => u.id == user_id) with
  | none => .ok []
  | some target => collabForTarget users user_id target

/-- A content catalog item. -/
structure ContentItem where
  id : String
  type : String
  title : String
  category : String
  score : ℚ
deriving DecidableEq, Repr

/-- The simulated content database, exactly as in the handler. -/
def content_items : List ContentItem :=
  [⟨"tech-001", "article", "Future of AI", "technology", 0.9⟩,
   ⟨"tech-002", "article", "Web3 Explained", "technology", 0.8⟩,
   ⟨"sports-001", "article", "Olympics 2024", "sports", 0.85⟩,
   ⟨"music-001", "playlist", "Indie Rock Hits", "music", 0.9⟩,
   ⟨"travel-001", "guide", "Hidden Gems in Europe", "travel", 0.87⟩,
   ⟨"cook-001", "recipe", "Quick Healthy Meals", "cooking", 0.75⟩]

/-- A scored content entry (catalog item plus `recommendation_score` and
`reason`). -/
structure ScoredItem where
  item : ContentItem
  recommendation_score : ℚ
  reason : String
deriving DecidableEq, Repr

/-- A content recommendation: either a plain catalog item (default mode)
or a scored entry (personalized mode) — Python returns differently-shaped
dicts in the two modes. -/
inductive ContentRec where
  | plain (item : ContentItem)
  | scored (s : ScoredItem)
deriving DecidableEq, Repr

/-- The catalog id carried by a content recommendation. -/
def contentRecId : ContentRec → String
  | .plain it => it.id
  | .scored s => s.item.id

/-- Score one catalog item against the user's preferences:
`preference_score = user_prefs.get(item['category'], 0.1)`;
`final_score = item['score'] * preference_score`, rounded to 3 places. -/
def scoreItem (prefs : PrefMap) (it : ContentItem) : ScoredItem :=
  ⟨it, pyRound3 (it.score * dictGetD prefs it.category (0.1 : ℚ)),
   "Matches your " ++ it.category ++ " preferences"⟩

/-- The sort key used by `scored_content.sort(key=lambda x:
x['recommendation_score'], reverse=True)`. -/
def contentSortRel : ScoredItem → ScoredItem → Prop :=
  fun a b => b.recommendation_score ≤ a.recommendation_score

instance : DecidableRel contentSortRel :=
  fun a b => inferInstanceAs (Decidable (_ ≤ _))

instance : IsTotal ScoredItem contentSortRel :=
  ⟨fun a b => le_total b.recommendation_score a.recommendation_score⟩

instance : IsTrans ScoredItem contentSortRel :=
  ⟨fun _ _ _ h1 h2 => le_trans h2 h1⟩

/-- Model of `random.sample(l, k)`: repeatedly pick the position
`seed % len` among the remaining elements.  Any run of Python's sampler
produces some seed-indexed outcome of this shape: `k` (or all, if fewer)
distinct positions without replacement. -/
def randomSample {α : Type} : ℕ → List α → ℕ → List α
  | _, _, 0 => []
  | _, [], _ + 1 => []
  | seed, a :: t, k + 1 =>
    let i := seed % (a :: t).length
    (a :: t).getD i a ::
      randomSample (seed / (a :: t).length) ((a :: t).eraseIdx i) k

/-- The default-mode result: `random.sample(content_items, min(3,
len(content_items)))`. -/
def defaultContent (seed : ℕ) : List ContentRec :=
  (randomSample seed content_items (min 3 content_items.length)).map ContentRec.plain

/-- The personalized branch: score every catalog item against the user's
preferences, stable-sort descending by `recommendation_score`, return the
top 5. -/
def personalizedContent (prefs : PrefMap) : List ContentRec :=
  ((List.insertionSort contentSortRel (content_items.map (scoreItem prefs))).take 5).map
    ContentRec.scored

/-- The body of `generate_content_recommendations` once a truthy user id is
in hand: load the user; with a record and a truthy preference string, parse
and personalize (a malformed score propagates); otherwise default. -/
def contentForUser (store : ℤ → List User) (seed : ℕ) (uid : ℤ) :
    Except ParseError (List ContentRec) :=
  match (store uid).head? with
  | none => .ok (defaultContent seed)
  | some u =>
    if rawPrefs u = "" then .ok (defaultContent seed)
    else do
      let prefs ← parsePrefs (rawPrefs u)
      pure (personalizedContent prefs)

/-- `generate_content_recommendations`, with the data store and the
randomness seed passed in.  `if user_id:` is Python truthiness, so id `0`
(like `None`) falls through to the default branch; so does a missing user
record or a falsy preference string. -/
def generate_content_recommendations (store : ℤ → List User) (seed : ℕ) :
    Option ℤ → Except ParseError (List ContentRec)
  | none => .ok (defaultContent seed)
  | some uid =>
    if uid = 0 then .ok (defaultContent seed)
    else contentForUser store seed uid

end Backworks

namespace Backworks

/-! ### Basic facts about the preference-map model -/

theorem sumSq_cons (e : String × ℚ) (p : PrefMap) :
    sumSq (e :: p) = e.2 ^ 2 + sumSq p := by
  simp [sumSq]

theorem sumSq_nonneg (p : PrefMap) : 0 ≤ sumSq p := by
  induction p with
  | nil => simp [sumSq]
  | cons e t ih => rw [sumSq_cons]; exact add_nonneg (sq_nonneg _) ih

theorem magnitude_nonneg (p : PrefMap) : 0 ≤ magnitude p :=
  Real.sqrt_nonneg _

theorem magnitude_eq_zero (p : PrefMap) : magnitude p = 0 ↔ sumSq p = 0 := by
  unfold magnitude
  rw [Real.sqrt_eq_zero']
  constructor
  · intro h
    have h' : sumSq p ≤ 0 := by exact_mod_cast h
    exact le_antisymm h' (sumSq_nonneg p)
  · intro h
    rw [h]
    simp

theorem dictGetD_nonneg (p : PrefMap) (k : String) (d : ℚ)
    (hp : ∀ e ∈ p, 0 ≤ e.2) (hd : 0 ≤ d) : 0 ≤ dictGetD p k d := by
  induction p with
  | nil => simpa [dictGetD]
  | cons e t ih =>
    obtain ⟨k2, v⟩ := e
    rw [dictGetD]
    split
    · exact hp (k2, v) (List.mem_cons_self _ _)
    · exact ih fun e he => hp e (List.mem_cons_of_mem _ he)

theorem sum_sq_dictGetD_le (p : PrefMap) (s : Finset String) :
    ∑ c ∈ s, dictGetD p c 0 ^ 2 ≤ sumSq p := by
  induction p generalizing s with
  | nil => simp [dictGetD, sumSq]
  | cons e t ih =>
    obtain ⟨k, v⟩ := e
    rw [sumSq_cons]
    by_cases hk : k ∈ s
    · have h2 : ∀ c ∈ s.erase k, dictGetD ((k, v) :: t) c 0 ^ 2 = dictGetD t c 0 ^ 2 := by
        intro c hc
        have hne : k ≠ c := fun h => ((Finset.mem_erase.mp hc).1 h.symm).elim
        simp [dictGetD, hne]
      have h1 : dictGetD ((k, v) :: t) k 0 = v := by simp [dictGetD]
      calc ∑ c ∈ s, dictGetD ((k, v) :: t) c 0 ^ 2
          = ∑ c ∈ s.erase k, dictGetD t c 0 ^ 2 + v ^ 2 := by
            rw [← Finset.sum_erase_add s _ hk, Finset.sum_congr rfl h2, h1]
        _ ≤ sumSq t + v ^ 2 := add_le_add_right (ih _) _
        _ = v ^ 2 + sumSq t := add_comm _ _
    · have h2 : ∀ c ∈ s, dictGetD ((k, v) :: t) c 0 ^ 2 = dictGetD t c 0 ^ 2 := by
        intro c hc
        have hne : k ≠ c := fun h => hk (h ▸ hc)
        simp [dictGetD, hne]
      calc ∑ c ∈ s, dictGetD ((k, v) :: t) c 0 ^ 2
          = ∑ c ∈ s, dictGetD t c 0 ^ 2 := Finset.sum_congr rfl h2
        _ ≤ sumSq t := ih s
        _ ≤ v ^ 2 + sumSq t := le_add_of_nonneg_left (sq_nonneg v)

theorem commonCats_comm (p1 p2 : PrefMap) : commonCats p1 p2 = commonCats p2 p1 :=
  Finset.inter_comm _ _

theorem dotProd_comm (p1 p2 : PrefMap) : dotProd p1 p2 = dotProd p2 p1 := by
  unfold dotProd
  rw [commonCats_comm]
  exact Finset.sum_congr rfl fun c _ => mul_comm _ _

theorem ne_nil_of_commonCats (p1 p2 : PrefMap) (h : commonCats p1 p2 ≠ ∅) :
    p1 ≠ [] ∧ p2 ≠ [] := by
  constructor <;> rintro rfl <;> exact h (by simp [commonCats, dictKeys])

/-! ### Branch-by-branch description of the similarity engine -/

theorem similarity_floor_empty (p1 p2 : PrefMap) (h : p1 = [] ∨ p2 = []) :
    similarity p1 p2 = 0.1 := by
  unfold similarity
  rw [if_pos h]

theorem similarity_floor_disjoint (p1 p2 : PrefMap) (h : commonCats p1 p2 = ∅) :
    similarity p1 p2 = 0.1 := by
  unfold similarity
  by_cases h1 : p1 = [] ∨ p2 = []
  · rw [if_pos h1]
  · rw [if_neg h1, if_pos h]

theorem similarity_floor_zero_norm (p1 p2 : PrefMap)
    (h : magnitude p1 = 0 ∨ magnitude p2 = 0) : similarity p1 p2 = 0.1 := by
  unfold similarity
  by_cases h1 : p1 = [] ∨ p2 = []
  · rw [if_pos h1]
  · rw [if_neg h1]
    by_cases h2 : commonCats p1 p2 = ∅
    · rw [if_pos h2]
    · rw [if_neg h2, if_pos h]

theorem similarity_cosine (p1 p2 : PrefMap) (hc : commonCats p1 p2 ≠ ∅)
    (h1 : magnitude p1 ≠ 0) (h2 : magnitude p2 ≠ 0) :
    similarity p1 p2 = ((dotProd p1 p2 : ℚ) : ℝ) / (magnitude p1 * magnitude p2) := by
  obtain ⟨hp1, hp2⟩ := ne_nil_of_commonCats p1 p2 hc
  unfold similarity
  rw [if_neg (not_or.mpr ⟨hp1, hp2⟩), if_neg hc, if_neg (not_or.mpr ⟨h1, h2⟩)]

/-- C1: the similarity function returns exactly 0.1 when either map is
empty, when the maps share no category, or when either full-vector L2 norm
is zero; otherwise it returns the dot product over the shared categories
divided by the product of the full-vector L2 norms. -/
theorem claim1_similarity_cases (p1 p2 : PrefMap) :
    (p1 = [] ∨ p2 = [] → similarity p1 p2 = 0.1)
    ∧ (commonCats p1 p2 = ∅ → similarity p1 p2 = 0.1)
    ∧ (magnitude p1 = 0 ∨ magnitude p2 = 0 → similarity p1 p2 = 0.1)
    ∧ (commonCats p1 p2 ≠ ∅ → magnitude p1 ≠ 0 → magnitude p2 ≠ 0 →
        similarity p1 p2 =
          ((dotProd p1 p2 : ℚ) : ℝ) / (magnitude p1 * magnitude p2)) :=
  ⟨similarity_floor_empty p1 p2, similarity_floor_disjoint p1 p2,
   similarity_floor_zero_norm p1 p2, similarity_cosine p1 p2⟩

theorem claim1_witness : similarity [] [] = 0.1 :=
  (claim1_similarity_cases [] []).1 (Or.inl rfl)

/-- C6: with all scores non-negative, the similarity lies in [0, 1]. -/
theorem claim6_similarity_bounds (p1 p2 : PrefMap)
    (h1 : ∀ e ∈ p1, 0 ≤ e.2) (h2 : ∀ e ∈ p2, 0 ≤ e.2) :
    0 ≤ similarity p1 p2 ∧ similarity p1 p2 ≤ 1 := by
  by_cases hc : commonCats p1 p2 = ∅
  · rw [similarity_floor_disjoint p1 p2 hc]; norm_num
  by_cases hm1 : magnitude p1 = 0
  · rw [similarity_floor_zero_norm p1 p2 (Or.inl hm1)]; norm_num
  by_cases hm2 : magnitude p2 = 0
  · rw [similarity_floor_zero_norm p1 p2 (Or.inr hm2)]; norm_num
  rw [similarity_cosine p1 p2 hc hm1 hm2]
  have hd : 0 ≤ dotProd p1 p2 := by
    apply Finset.sum_nonneg
    intro c _
    exact mul_nonneg (dictGetD_nonneg p1 c 0 h1 le_rfl)
      (dictGetD_nonneg p2 c 0 h2 le_rfl)
  have hmag1 : 0 < magnitude p1 := lt_of_le_of_ne (magnitude_nonneg p1) (Ne.symm hm1)
  have hmag2 : 0 < magnitude p2 := lt_of_le_of_ne (magnitude_nonneg p2) (Ne.symm hm2)
  have hdenom : 0 < magnitude p1 * magnitude p2 := mul_pos hmag1 hmag2
  constructor
  · exact div_nonneg (by exact_mod_cast hd) hdenom.le
  · rw [div_le_one hdenom]
    have hcs : dotProd p1 p2 ^ 2 ≤ sumSq p1 * sumSq p2 := by
      calc dotProd p1 p2 ^ 2
          ≤ (∑ c ∈ commonCats p1 p2, dictGetD p1 c 0 ^ 2) *
              ∑ c ∈ commonCats p1 p2, dictGetD p2 c 0 ^ 2 :=
            Finset.sum_mul_sq_le_sq_mul_sq _ _ _
        _ ≤ sumSq p1 * sumSq p2 := by
            apply mul_le_mul (sum_sq_dictGetD_le p1 _) (sum_sq_dictGetD_le p2 _)
              (Finset.sum_nonneg fun c _ => sq_nonneg _) (sumSq_nonneg p1)
    have hcsR : ((dotProd p1 p2 : ℚ) : ℝ) ^ 2 ≤
        ((sumSq p1 : ℚ) : ℝ) * ((sumSq p2 : ℚ) : ℝ) := by exact_mod_cast hcs
    have hsq : ((sumSq p1 : ℚ) : ℝ) * ((sumSq p2 : ℚ) : ℝ) =
        (magnitude p1 * magnitude p2) ^ 2 := by
      unfold magnitude
      rw [mul_pow, Real.sq_sqrt (by exact_mod_cast sumSq_nonneg p1),
        Real.sq_sqrt (by exact_mod_cast sumSq_nonneg p2)]
    calc ((dotProd p1 p2 : ℚ) : ℝ)
        = Real.sqrt (((dotProd p1 p2 : ℚ) : ℝ) ^ 2) :=
          (Real.sqrt_sq (by exact_mod_cast hd)).symm
      _ ≤ Real.sqrt ((magnitude p1 * magnitude p2) ^ 2) :=
          Real.sqrt_le_sqrt (by rw [← hsq]; exact hcsR)
      _ = magnitude p1 * magnitude p2 := Real.sqrt_sq hdenom.le

theorem claim6_witness :
    (∀ e ∈ ([] : PrefMap), 0 ≤ e.2) ∧
      0 ≤ similarity [] [] ∧ similarity [] [] ≤ 1 :=
  ⟨fun e he => absurd he (List.not_mem_nil e),
   claim6_similarity_bounds [] [] (fun e he => absurd he (List.not_mem_nil e))
     (fun e he => absurd he (List.not_mem_nil e))⟩

/-- C7: on the cosine branch (a shared category, both norms nonzero) the
similarity function is symmetric. -/
theorem claim7_similarity_symm (p1 p2 : PrefMap) (hc : commonCats p1 p2 ≠ ∅)
    (h1 : magnitude p1 ≠ 0) (h2 : magnitude p2 ≠ 0) :
    similarity p1 p2 = similarity p2 p1 := by
  rw [similarity_cosine p1 p2 hc h1 h2,
    similarity_cosine p2 p1 (fun h => hc (commonCats_comm p1 p2 ▸ h)) h2 h1,
    dotProd_comm, mul_comm]

theorem claim7_witness :
    similarity [("a", 1)] [("a", 1 / 2)] = similarity [("a", 1 / 2)] [("a", 1)] :=
  claim7_similarity_symm [("a", 1)] [("a", 1 / 2)]
    (by decide)
    (by
      rw [Ne, magnitude_eq_zero]
      norm_num [sumSq])
    (by
      rw [Ne, magnitude_eq_zero]
      norm_num [sumSq])

end Backworks

namespace Backworks

theorem sum_sq_dictGetD_of_nodup (p : PrefMap) (h : (dictKeys p).Nodup) :
    ∑ c ∈ (dictKeys p).toFinset, dictGetD p c 0 ^ 2 = sumSq p := by
  induction p with
  | nil => simp [dictKeys, sumSq]
  | cons e t ih =>
    obtain ⟨k, v⟩ := e
    have hkeys : dictKeys ((k, v) :: t) = k :: dictKeys t := rfl
    rw [hkeys] at h ⊢
    have hk : k ∉ dictKeys t := (List.nodup_cons.mp h).1
    have ht : (dictKeys t).Nodup := (List.nodup_cons.mp h).2
    rw [List.toFinset_cons, Finset.sum_insert (by simpa using hk)]
    have h2 : ∀ c ∈ (dictKeys t).toFinset,
        dictGetD ((k, v) :: t) c 0 ^ 2 = dictGetD t c 0 ^ 2 := by
      intro c hc
      have hne : k ≠ c := fun hkc => hk (hkc ▸ List.mem_toFinset.mp hc)
      simp [dictGetD, hne]
    rw [Finset.sum_congr rfl h2, ih ht, sumSq_cons]
    simp [dictGetD]

theorem commonCats_self (p : PrefMap) : commonCats p p = (dictKeys p).toFinset :=
  Finset.inter_self _

theorem dotProd_self (p : PrefMap) (h : (dictKeys p).Nodup) :
    dotProd p p = sumSq p := by
  unfold dotProd
  rw [commonCats_self]
  rw [← sum_sq_dictGetD_of_nodup p h]
  exact Finset.sum_congr rfl fun c _ => (sq (dictGetD p c 0)).symm

/-- C8: self-similarity of a non-empty, well-formed (unique keys)
preference map with nonzero L2 norm is exactly 1. -/
theorem claim8_self_similarity (p : PrefMap) (hp : p ≠ [])
    (hk : (dictKeys p).Nodup) (hm : magnitude p ≠ 0) :
    similarity p p = 1 := by
  have hc : commonCats p p ≠ ∅ := by
    rw [commonCats_self]
    obtain ⟨e, t, rfl⟩ : ∃ e t, p = e :: t := by
      cases p with
      | nil => exact absurd rfl hp
      | cons e t => exact ⟨e, t, rfl⟩
    simp [dictKeys]
  rw [similarity_cosine p p hc hm hm, dotProd_self p hk]
  have hs : sumSq p ≠ 0 := fun h => hm ((magnitude_eq_zero p).mpr h)
  have hmm : magnitude p * magnitude p = ((sumSq p : ℚ) : ℝ) := by
    unfold magnitude
    exact Real.mul_self_sqrt (by exact_mod_cast sumSq_nonneg p)
  rw [hmm]
  exact div_self (by exact_mod_cast hs)

theorem claim8_witness : similarity [("technology", 1)] [("technology", 1)] = 1 :=
  claim8_self_similarity [("technology", 1)] (by decide) (by decide)
    (by
      rw [Ne, magnitude_eq_zero]
      norm_num [sumSq])

end Backworks

namespace Backworks

/-! ### The preference parser -/

theorem data_asString (l : List Char) : (l.asString).data = l := rfl

theorem toList_asString (l : List Char) : (l.asString).toList = l := rfl

theorem except_bind_ok {α β : Type} (a : α) (f : α → Except ParseError β) :
    (Except.ok a : Except ParseError α) >>= f = f a := rfl

theorem except_bind_error {α β : Type} (e : ParseError) (f : α → Except ParseError β) :
    (Except.error e : Except ParseError α) >>= f = .error e := rfl

theorem prefFold_error_iff (l : List String) (acc : PrefMap) :
    (∃ e, l.foldlM prefStep acc = .error e) ↔
      ∃ p ∈ l, ∃ c sc, splitFirstColon p = some (c, sc) ∧ parseFloat sc = none := by
  induction l generalizing acc with
  | nil => simp [List.foldlM_nil, pure, Except.pure]
  | cons p t ih =>
    rw [List.foldlM_cons]
    rcases hsc : splitFirstColon p with _ | ⟨c, sc⟩
    · have hstep : prefStep acc p = .ok acc := by simp [prefStep, hsc]
      rw [hstep, except_bind_ok, ih]
      constructor
      · rintro ⟨q, hq, h⟩
        exact ⟨q, List.mem_cons_of_mem _ hq, h⟩
      · rintro ⟨q, hq, c2, sc2, h1, h2⟩
        rcases List.mem_cons.mp hq with rfl | hq'
        · rw [hsc] at h1
          exact absurd h1 (by simp)
        · exact ⟨q, hq', c2, sc2, h1, h2⟩
    · rcases hpf : parseFloat sc with _ | v
      · have hstep : prefStep acc p = .error (.malformedScore p) := by
          simp [prefStep, hsc, hpf]
        rw [hstep, except_bind_error]
        constructor
        · intro _
          exact ⟨p, List.mem_cons_self p t, c, sc, hsc, hpf⟩
        · intro _
          exact ⟨.malformedScore p, rfl⟩
      · have hstep : prefStep acc p = .ok (dictInsert acc c v) := by
          simp [prefStep, hsc, hpf]
        rw [hstep, except_bind_ok, ih]
        constructor
        · rintro ⟨q, hq, h⟩
          exact ⟨q, List.mem_cons_of_mem _ hq, h⟩
        · rintro ⟨q, hq, c2, sc2, h1, h2⟩
          rcases List.mem_cons.mp hq with rfl | hq'
          · rw [hsc] at h1
            have hc2 : c = c2 ∧ sc = sc2 := by
              cases h1
              exact ⟨rfl, rfl⟩
            rw [← hc2.2, hpf] at h2
            exact absurd h2 (by simp)
          · exact ⟨q, hq', c2, sc2, h1, h2⟩

theorem prefFold_skip (l : List String) (acc : PrefMap) :
    l.foldlM prefStep acc =
      (l.filter (fun p => (splitFirstColon p).isSome)).foldlM prefStep acc := by
  induction l generalizing acc with
  | nil => rfl
  | cons p t ih =>
    rcases hsc : splitFirstColon p with _ | ⟨c, sc⟩
    · have hstep : prefStep acc p = .ok acc := by simp [prefStep, hsc]
      have hf : (p :: t).filter (fun q => (splitFirstColon q).isSome) =
          t.filter (fun q => (splitFirstColon q).isSome) := by
        simp [List.filter_cons, hsc]
      rw [List.foldlM_cons, hstep, except_bind_ok, hf, ih]
    · have hf : (p :: t).filter (fun q => (splitFirstColon q).isSome) =
          p :: t.filter (fun q => (splitFirstColon q).isSome) := by
        simp [List.filter_cons, hsc]
      rw [List.foldlM_cons, hf, List.foldlM_cons]
      cases hstep : prefStep acc p with
      | error e => rw [except_bind_error, except_bind_error]
      | ok acc2 => rw [except_bind_ok, except_bind_ok, ih]

theorem exists_dropWhile_colon (cs : List Char) (h : cs.contains ':' = true) :
    ∃ t, cs.dropWhile (fun c => c ≠ ':') = ':' :: t := by
  induction cs with
  | nil => simp at h
  | cons a l ih =>
    by_cases ha : a = ':'
    · subst ha
      refine ⟨l, ?_⟩
      rw [List.dropWhile_cons, if_neg (by simp)]
    · have hcl : l.contains ':' = true := by
        simp only [List.contains_cons, Bool.or_eq_true, beq_iff_eq] at h
        rcases h with h1 | h1
        · exact absurd h1.symm ha
        · exact h1
      obtain ⟨t, ht⟩ := ih hcl
      refine ⟨t, ?_⟩
      rw [List.dropWhile_cons, if_pos (by simp [ha]), ht]

end Backworks

namespace Backworks

theorem splitFirstColon_spec (piece c sc : String)
    (h : splitFirstColon piece = some (c, sc)) :
    piece.toList = c.toList ++ ':' :: sc.toList ∧ ':' ∉ c.toList := by
  unfold splitFirstColon at h
  by_cases hc : piece.toList.contains ':' = true
  · rw [if_pos hc] at h
    have hcc : c = (piece.toList.takeWhile (fun ch => ch ≠ ':')).asString ∧
        sc = ((piece.toList.dropWhile (fun ch => ch ≠ ':')).drop 1).asString := by
      cases h
      exact ⟨rfl, rfl⟩
    obtain ⟨t, ht⟩ := exists_dropWhile_colon piece.toList hc
    constructor
    · have h1 : c.toList = piece.toList.takeWhile (fun ch => ch ≠ ':') := by
        rw [hcc.1, toList_asString]
      have h2 : sc.toList = t := by
        rw [hcc.2, toList_asString, ht]
        rfl
      rw [h1, h2, ← ht]
      exact (List.takeWhile_append_dropWhile _ _).symm
    · intro hmem
      rw [hcc.1, toList_asString] at hmem
      have := List.mem_takeWhile_imp hmem
      simp at this
  · rw [if_neg hc] at h
    exact absurd h (by simp)

/-- C5: the preference parser splits the raw string on commas, splits each
piece at its first colon, silently skips pieces without a colon, fails with
a `ParseError` exactly when some colon-piece's score suffix is not a
well-formed float literal (and the error propagates out of the content
recommender), and maps the empty string to the empty preference map. -/
theorem claim5_parsing (raw : String) :
    ((∃ e, parsePrefs raw = .error e) ↔
      ∃ p ∈ splitComma raw, ∃ c sc,
        splitFirstColon p = some (c, sc) ∧ parseFloat sc = none)
    ∧ parsePrefs "" = .ok []
    ∧ parsePrefs raw =
        ((splitComma raw).filter (fun p => (splitFirstColon p).isSome)).foldlM prefStep []
    ∧ (∀ p c sc, splitFirstColon p = some (c, sc) →
        p.toList = c.toList ++ ':' :: sc.toList ∧ ':' ∉ c.toList)
    ∧ (∀ (store : ℤ → List User) (seed : ℕ) (i : ℤ) (u : User) (e : ParseError),
        i ≠ 0 → (store i).head? = some u → rawPrefs u = raw →
        parsePrefs raw = .error e → raw ≠ "" →
        generate_content_recommendations store seed (some i) = .error e) := by
  refine ⟨prefFold_error_iff (splitComma raw) [], rfl,
    prefFold_skip (splitComma raw) [], fun p c sc h => splitFirstColon_spec p c sc h,
    ?_⟩
  intro store seed i u e hi hst hraw hperr hne
  have hg : generate_content_recommendations store seed (some i) =
      contentForUser store seed i := if_neg hi
  have hcu : contentForUser store seed i =
      (if rawPrefs u = "" then .ok (defaultContent seed)
       else parsePrefs (rawPrefs u) >>= fun prefs => pure (personalizedContent prefs)) := by
    unfold contentForUser
    rw [hst]
  rw [hg, hcu, if_neg (hraw ▸ hne), hraw, hperr, except_bind_error]

theorem claim5_witness :
    parsePrefs "" = .ok []
    ∧ "a:1.0".toList = "a".toList ++ ':' :: "1.0".toList
    ∧ ':' ∉ "a".toList
    ∧ (∃ e, parsePrefs "a:bad" = .error e) := by
  obtain ⟨hsplit, hnotmem⟩ :=
    (claim5_parsing "").2.2.2.1 "a:1.0" "a" "1.0" (by decide)
  refine ⟨(claim5_parsing "").2.1, hsplit, hnotmem, ?_⟩
  exact (claim5_parsing "a:bad").1.mpr
    ⟨"a:bad", by decide, "a", "bad", by decide, by decide⟩

end Backworks

namespace Backworks

/-! ### The collaborative recommender -/

theorem gen_collab_of_find (users : List User) (uid : ℤ) (target : User)
    (h : users.find? (fun u => u.id == uid) = some target) :
    generate_collaborative_recommendations users uid =
      collabForTarget users uid target := by
  unfold generate_collaborative_recommendations
  rw [h]

theorem gen_collab_of_not_found (users : List User) (uid : ℤ)
    (h : users.find? (fun u => u.id == uid) = none) :
    generate_collaborative_recommendations users uid = .ok [] := by
  unfold generate_collaborative_recommendations
  rw [h]

theorem simsList_mem (target : User) (l : List User) (sims : List (User × ℝ))
    (h : simsList target l = .ok sims) : ∀ p ∈ sims, p.1 ∈ l := by
  induction l generalizing sims with
  | nil =>
    have hs : sims = [] := by
      cases h
      rfl
    subst hs
    simp
  | cons u rest ih =>
    rw [simsList] at h
    rcases hcs : calculate_user_similarity target u with e | s
    · rw [hcs, except_bind_error] at h
      exact absurd h (by simp)
    · rw [hcs, except_bind_ok] at h
      rcases hrest : simsList target rest with e | tail
      · rw [hrest, except_bind_error] at h
        exact absurd h (by simp)
      · rw [hrest, except_bind_ok] at h
        have hs : sims = (u, s) :: tail := by
          cases h
          rfl
        subst hs
        intro p hp
        rcases List.mem_cons.mp hp with rfl | hp'
        · exact List.mem_cons_self _ _
        · exact List.mem_cons_of_mem _ (ih tail hrest p hp')

/-- C3: with the target present and every similarity computed, the
collaborative recommender returns the first 3 of the non-target users
stable-sorted descending by similarity: the sorted list is a permutation of
the scored list, pairwise non-increasing (as is its 3-prefix), and any two
entries with equal similarity keep their relative order from the input
population. -/
theorem claim3_collaborative_ranking (users : List User) (uid : ℤ)
    (target : User) (sims : List (User × ℝ))
    (htarget : users.find? (fun u => u.id == uid) = some target)
    (hsims : simsList target (users.filter (fun u => u.id != uid)) = .ok sims) :
    generate_collaborative_recommendations users uid =
      .ok (((List.insertionSort collabSortRel sims).take 3).map mkCollabRec)
    ∧ List.Perm (List.insertionSort collabSortRel sims) sims
    ∧ List.Sorted collabSortRel (List.insertionSort collabSortRel sims)
    ∧ List.Sorted collabSortRel ((List.insertionSort collabSortRel sims).take 3)
    ∧ (∀ a b : User × ℝ, a.2 = b.2 → List.Sublist [a, b] sims →
        List.Sublist [a, b] (List.insertionSort collabSortRel sims)) := by
  refine ⟨?_, List.perm_insertionSort collabSortRel sims,
    List.sorted_insertionSort collabSortRel sims,
    List.Pairwise.sublist (List.take_sublist 3 _)
      (List.sorted_insertionSort collabSortRel sims),
    ?_⟩
  · rw [gen_collab_of_find users uid target htarget]
    unfold collabForTarget
    rw [hsims, except_bind_ok]
    rfl
  · intro a b hab hsub
    exact List.pair_sublist_insertionSort (le_of_eq hab.symm) hsub

theorem claim3_witness :
    generate_collaborative_recommendations
        [⟨1, "alice", "alice@example.com", some "a:1.0"⟩,
         ⟨2, "bob", "bob@example.com", none⟩] 1 =
      .ok (((List.insertionSort collabSortRel
        [(⟨2, "bob", "bob@example.com", none⟩, (0.1 : ℝ))]).take 3).map mkCollabRec) :=
  (claim3_collaborative_ranking
    [⟨1, "alice", "alice@example.com", some "a:1.0"⟩,
     ⟨2, "bob", "bob@example.com", none⟩] 1
    ⟨1, "alice", "alice@example.com", some "a:1.0"⟩
    [(⟨2, "bob", "bob@example.com", none⟩, (0.1 : ℝ))] rfl rfl).1

/-- C4: the collaborative recommender never returns more than 3 entries,
never includes the target user, and yields the empty list (not an error)
when the target id is absent from the population. -/
theorem claim4_collaborative_bounds (users : List User) (uid : ℤ) :
    (∀ recs, generate_collaborative_recommendations users uid = .ok recs →
      recs.length ≤ 3 ∧ ∀ rec ∈ recs, rec.user_id ≠ uid)
    ∧ (users.find? (fun u => u.id == uid) = none →
        generate_collaborative_recommendations users uid = .ok []) := by
  refine ⟨?_, gen_collab_of_not_found users uid⟩
  intro recs hok
  rcases hfind : users.find? (fun u => u.id == uid) with _ | target
  · rw [gen_collab_of_not_found users uid hfind] at hok
    have hr : recs = [] := by
      cases hok
      rfl
    subst hr
    simp
  · rw [gen_collab_of_find users uid target hfind] at hok
    unfold collabForTarget at hok
    rcases hsims : simsList target (users.filter (fun u => u.id != uid)) with e | sims
    · rw [hsims, except_bind_error] at hok
      exact absurd hok (by simp)
    · rw [hsims, except_bind_ok] at hok
      have hr : recs =
          ((List.insertionSort collabSortRel sims).take 3).map mkCollabRec := by
        cases hok
        rfl
      subst hr
      constructor
      · rw [List.length_map, List.length_take]
        exact min_le_left _ _
      · intro rec hrec
        obtain ⟨p, hp, rfl⟩ := List.mem_map.mp hrec
        have hp2 : p ∈ List.insertionSort collabSortRel sims :=
          (List.take_sublist 3 _).mem hp
        have hp3 : p ∈ sims := (List.perm_insertionSort collabSortRel sims).mem_iff.mp hp2
        have hp4 : p.1 ∈ users.filter (fun u => u.id != uid) :=
          simsList_mem target _ sims hsims p hp3
        have hp5 : (p.1.id != uid) = true := (List.mem_filter.mp hp4).2
        exact bne_iff_ne.mp hp5

theorem claim4_witness :
    generate_collaborative_recommendations [] 7 = .ok []
    ∧ (([] : List CollabRec).length ≤ 3) := by
  have h := (claim4_collaborative_bounds [] 7).2 rfl
  exact ⟨h, ((claim4_collaborative_bounds [] 7).1 [] h).1⟩

end Backworks

namespace Backworks

/-! ### The sampling model and the content recommender -/

theorem randomSample_cons {α : Type} (seed : ℕ) (a : α) (t : List α) (k : ℕ) :
    randomSample seed (a :: t) (k + 1) =
      (a :: t).getD (seed % (a :: t).length) a ::
        randomSample (seed / (a :: t).length)
          ((a :: t).eraseIdx (seed % (a :: t).length)) k := rfl

theorem randomSample_length {α : Type} (k : ℕ) : ∀ (seed : ℕ) (l : List α),
    (randomSample seed l k).length = min k l.length := by
  induction k with
  | zero =>
    intro seed l
    simp [randomSample]
  | succ k ih =>
    intro seed l
    cases l with
    | nil => simp [randomSample]
    | cons a t =>
      have hi : seed % (a :: t).length < (a :: t).length := Nat.mod_lt _ (by simp)
      have h1 := List.length_eraseIdx_add_one hi
      have h2 : (a :: t).length = t.length + 1 := rfl
      rw [randomSample_cons, List.length_cons, ih]
      omega

theorem randomSample_subset {α : Type} (k : ℕ) : ∀ (seed : ℕ) (l : List α) (x : α),
    x ∈ randomSample seed l k → x ∈ l := by
  induction k with
  | zero =>
    intro seed l x hx
    simp [randomSample] at hx
  | succ k ih =>
    intro seed l x hx
    cases l with
    | nil => simp [randomSample] at hx
    | cons a t =>
      rw [randomSample_cons] at hx
      have hi : seed % (a :: t).length < (a :: t).length := Nat.mod_lt _ (by simp)
      rcases List.mem_cons.mp hx with rfl | hx'
      · rw [List.getD_eq_getElem?_getD, List.getElem?_eq_getElem hi]
        exact List.getElem_mem hi
      · exact List.Sublist.mem (ih _ _ _ hx') (List.eraseIdx_sublist _ _)

theorem get_not_mem_eraseIdx {α : Type} : ∀ (l : List α) (i : ℕ) (hi : i < l.length),
    l.Nodup → l.get ⟨i, hi⟩ ∉ l.eraseIdx i := by
  intro l
  induction l with
  | nil =>
    intro i hi
    simp at hi
  | cons a t ih =>
    intro i hi hnd
    cases i with
    | zero =>
      simp only [List.eraseIdx, List.get]
      exact (List.nodup_cons.mp hnd).1
    | succ i =>
      have hit : i < t.length := by simpa using hi
      have hnd' := List.nodup_cons.mp hnd
      simp only [List.eraseIdx, List.get]
      intro hmem
      rcases List.mem_cons.mp hmem with heq | hmem'
      · exact hnd'.1 (heq ▸ List.get_mem t i hit)
      · exact ih i hit hnd'.2 hmem'

theorem randomSample_nodup {α : Type} (k : ℕ) : ∀ (seed : ℕ) (l : List α),
    l.Nodup → (randomSample seed l k).Nodup := by
  induction k with
  | zero =>
    intro seed l _
    simp [randomSample]
  | succ k ih =>
    intro seed l h
    cases l with
    | nil => simp [randomSample]
    | cons a t =>
      rw [randomSample_cons]
      have hi : seed % (a :: t).length < (a :: t).length := Nat.mod_lt _ (by simp)
      refine List.nodup_cons.mpr
        ⟨?_, ih _ _ (List.Sublist.nodup (List.eraseIdx_sublist _ _) h)⟩
      intro hmem
      have h1 : (a :: t).getD (seed % (a :: t).length) a = (a :: t).get ⟨_, hi⟩ := by
        rw [List.getD_eq_getElem?_getD, List.getElem?_eq_getElem hi]
        rfl
      have h2 := randomSample_subset k _ _ _ hmem
      rw [h1] at h2
      exact get_not_mem_eraseIdx _ _ hi h h2

theorem content_items_nodup : content_items.Nodup := by
  have h : (content_items.map (fun it => it.id)).Nodup := by decide
  exact List.Nodup.of_map _ h

theorem plain_injective : Function.Injective ContentRec.plain := by
  intro a b h
  cases h
  rfl

theorem defaultContent_spec (seed : ℕ) :
    (defaultContent seed).length = min 3 content_items.length
    ∧ (∀ r ∈ defaultContent seed, ∃ it ∈ content_items, r = .plain it)
    ∧ (defaultContent seed).Nodup := by
  refine ⟨?_, ?_, ?_⟩
  · rw [defaultContent, List.length_map, randomSample_length]
    have h : content_items.length = 6 := rfl
    rw [h]
    omega
  · intro r hr
    obtain ⟨x, hx, rfl⟩ := List.mem_map.mp hr
    exact ⟨x, randomSample_subset _ _ _ _ hx, rfl⟩
  · exact List.Nodup.map plain_injective
      (randomSample_nodup _ _ _ content_items_nodup)

end Backworks

namespace Backworks

/-- C9: in default mode (no user id, or the user's preference string is
absent/empty), the content recommender returns, for every outcome of the
randomness source, exactly `min 3 (catalog size)` distinct catalog items. -/
theorem claim9_default_mode (store : ℤ → List User) (seed : ℕ) (uid : Option ℤ)
    (h : uid = none ∨ ∃ i u, uid = some i ∧ (store i).head? = some u ∧
        (u.preferences = none ∨ u.preferences = some "")) :
    generate_content_recommendations store seed uid = .ok (defaultContent seed)
    ∧ (defaultContent seed).length = min 3 content_items.length
    ∧ (∀ r ∈ defaultContent seed, ∃ it ∈ content_items, r = .plain it)
    ∧ (defaultContent seed).Nodup := by
  obtain ⟨hlen, hmem, hnd⟩ := defaultContent_spec seed
  refine ⟨?_, hlen, hmem, hnd⟩
  rcases h with rfl | ⟨i, u, rfl, hst, hpf⟩
  · rfl
  · by_cases hi : i = 0
    · subst hi
      rfl
    · have hg : generate_content_recommendations store seed (some i) =
          contentForUser store seed i := if_neg hi
      have hru : rawPrefs u = "" := by
        rcases hpf with h' | h' <;> simp [rawPrefs, h']
      have hcu : contentForUser store seed i =
          (if rawPrefs u = "" then .ok (defaultContent seed)
           else parsePrefs (rawPrefs u) >>= fun prefs =>
             pure (personalizedContent prefs)) := by
        unfold contentForUser
        rw [hst]
      rw [hg, hcu, if_pos hru]

theorem claim9_witness :
    generate_content_recommendations (fun _ => []) 0 none = .ok (defaultContent 0)
    ∧ (defaultContent 0).Nodup :=
  ⟨(claim9_default_mode (fun _ => []) 0 none (Or.inl rfl)).1,
   (claim9_default_mode (fun _ => []) 0 none (Or.inl rfl)).2.2.2⟩

/-- C10: a supplied user id with no record in the data store falls back to
the default sampled mode — the same result as with no user id — which is a
non-empty list of plain catalog items, not a personalized ranking. -/
theorem claim10_unknown_user (store : ℤ → List User) (seed : ℕ) (i : ℤ)
    (h : store i = []) :
    generate_content_recommendations store seed (some i) =
      generate_content_recommendations store seed none
    ∧ generate_content_recommendations store seed (some i) = .ok (defaultContent seed)
    ∧ defaultContent seed ≠ []
    ∧ (∀ r ∈ defaultContent seed, ∃ it ∈ content_items, r = .plain it) := by
  obtain ⟨hlen, hmem, _⟩ := defaultContent_spec seed
  have hpos : 0 < (defaultContent seed).length := by
    rw [hlen]
    decide
  have hne : defaultContent seed ≠ [] := by
    intro h0
    rw [h0] at hpos
    simp at hpos
  have hsome : generate_content_recommendations store seed (some i) =
      .ok (defaultContent seed) := by
    by_cases hi : i = 0
    · subst hi
      rfl
    · have hg : generate_content_recommendations store seed (some i) =
          contentForUser store seed i := if_neg hi
      rw [hg]
      unfold contentForUser
      rw [h]
      rfl
  exact ⟨hsome.trans rfl, hsome, hne, hmem⟩

theorem claim10_witness :
    generate_content_recommendations (fun _ => []) 0 (some 5) =
      generate_content_recommendations (fun _ => []) 0 none
    ∧ defaultContent 0 ≠ [] :=
  ⟨(claim10_unknown_user (fun _ => []) 0 5 rfl).1,
   (claim10_unknown_user (fun _ => []) 0 5 rfl).2.2.1⟩

end Backworks

namespace Backworks

/-- Data store exhibiting the Python-truthiness edge of `if user_id:`:
a user whose id is `0` and whose preference map is non-empty. -/
def zeroIdStore : ℤ → List User :=
  fun _ => [⟨0, "zoe", "zoe@example.com", some "technology:1.0"⟩]

/-- Data store for the personalized-mode witness. -/
def techStore : ℤ → List User :=
  fun _ => [⟨1, "tina", "tina@example.com", some "technology:1.0"⟩]

/-- C2 (amended: the user id must also be nonzero, since `if user_id:` is
false for id 0): in personalized mode every catalog item is scored as
`base_score * prefs.get(category, 0.1)` rounded to 3 places, the items are
stable-sorted descending by that score and the first 5 are returned; for
preferences `{"technology": 1.0}` item `tech-001` is ranked above
`sports-001`. -/
theorem claim2_personalized_ranking (store : ℤ → List User) (seed : ℕ)
    (i : ℤ) (u : User) (pm : PrefMap) (hi : i ≠ 0)
    (hst : (store i).head? = some u)
    (hparse : parsePrefs (rawPrefs u) = .ok pm) (hpm : pm ≠ []) :
    generate_content_recommendations store seed (some i) =
      .ok (personalizedContent pm)
    ∧ personalizedContent pm =
        ((List.insertionSort contentSortRel (content_items.map (fun it =>
          ⟨it, pyRound3 (it.score * dictGetD pm it.category (0.1 : ℚ)),
           "Matches your " ++ it.category ++ " preferences"⟩))).take 5).map
          ContentRec.scored
    ∧ List.Sorted contentSortRel
        (List.insertionSort contentSortRel (content_items.map (scoreItem pm)))
    ∧ (pm = [("technology", 1)] →
        (personalizedContent pm).map contentRecId =
          ["tech-001", "tech-002", "music-001", "travel-001", "sports-001"]
        ∧ ((personalizedContent pm).map contentRecId).indexOf "tech-001" <
            ((personalizedContent pm).map contentRecId).indexOf "sports-001") := by
  have hru : rawPrefs u ≠ "" := by
    intro h0
    rw [h0] at hparse
    have hemp : parsePrefs "" = .ok ([] : PrefMap) := rfl
    rw [hemp] at hparse
    have : pm = [] := by
      cases hparse
      rfl
    exact hpm this
  have hg : generate_content_recommendations store seed (some i) =
      contentForUser store seed i := if_neg hi
  have hcu : contentForUser store seed i =
      (if rawPrefs u = "" then .ok (defaultContent seed)
       else parsePrefs (rawPrefs u) >>= fun prefs =>
         pure (personalizedContent prefs)) := by
    unfold contentForUser
    rw [hst]
  refine ⟨?_, rfl, List.sorted_insertionSort contentSortRel _, ?_⟩
  · rw [hg, hcu, if_neg hru, hparse, except_bind_ok]
    rfl
  · rintro rfl
    have he : (personalizedContent [("technology", 1)]).map contentRecId =
        ["tech-001", "tech-002", "music-001", "travel-001", "sports-001"] := by
      norm_num +decide [personalizedContent, content_items, scoreItem, pyRound3,
        roundHalfEvenQ, dictGetD, List.insertionSort, List.orderedInsert,
        contentSortRel, contentRecId, Int.fract]
    refine ⟨he, ?_⟩
    rw [he]
    decide

/-- The claim as frozen fails at user id 0: the store has a user with id 0
and a non-empty preference map, the id is given, yet the code takes the
default sampled branch (Python's `if user_id:` is false at 0), not the
personalized top-5 ranking. -/
theorem claim2_counterexample :
    parsePrefs "technology:1.0" = .ok [("technology", 1)]
    ∧ generate_content_recommendations zeroIdStore 0 (some 0) ≠
        .ok (personalizedContent [("technology", 1)]) := by
  constructor
  · simp +decide [parsePrefs, splitComma, splitCommaAux, prefStep, splitFirstColon,
      parseFloat, parseMantissa, natOfDigits, charTrim, dictInsert, List.foldlM_cons,
      data_asString]
  · intro hcontra
    have h1 : generate_content_recommendations zeroIdStore 0 (some 0) =
        .ok (defaultContent 0) := rfl
    rw [h1] at hcontra
    injection hcontra with h2
    have hl1 : (defaultContent 0).length = 3 := by
      rw [(defaultContent_spec 0).1]
      decide
    have hl2 : (personalizedContent [("technology", 1)]).length = 5 := by
      rw [personalizedContent, List.length_map, List.length_take,
        List.length_insertionSort, List.length_map]
      decide
    rw [h2, hl2] at hl1
    exact absurd hl1 (by decide)

theorem claim2_witness :
    generate_content_recommendations techStore 0 (some 1) =
      .ok (personalizedContent [("technology", 1)]) :=
  (claim2_personalized_ranking techStore 0 1
    ⟨1, "tina", "tina@example.com", some "technology:1.0"⟩ [("technology", 1)]
    (by decide) rfl
    (by
      simp +decide [parsePrefs, splitComma, splitCommaAux, prefStep, splitFirstColon,
        parseFloat, parseMantissa, natOfDigits, charTrim, dictInsert,
        List.foldlM_cons, data_asString, rawPrefs])
    (by decide)).1

end Backworks
